import Mathlib

/-!
# Verification of the snadi data-mapping and relation-hydration core

This file embeds the snadi library (packages/core/src/index.ts and
packages/knex/src/index.ts) into Lean and proves properties of the
embedding.

Modelling conventions:
* JavaScript values that flow through the mapper/hydrator are modelled by
  the inductive type `Val` (integers, strings, `null`, `undefined`, arrays
  and plain objects with insertion-ordered fields).  Property access
  `e[k]` is `getField e k`, returning `none` for an absent property
  (JS `undefined`) and `some v` for a present one; `some Val.vnull`
  therefore models an explicit `null` value, distinct from an absent key.
* The asynchronous TS code is sequential in effect: every `load` result is
  awaited and consumed in order, and concurrent relationship branches write
  disjoint property keys, each branch having issued its `load` with the
  entities array as passed into the call.  The embedding is the
  corresponding pure state-passing program: each branch computes its
  `load`/`attach` from the entities given to `loadRelationsForArray`, and
  the per-key property writes are applied with `setField`.  The source
  gives no ordering guarantee between branches of one call, so the trace
  below fixes one interleaving (sub-relationship loads recorded next to
  their parent key).
* To state the batching property, `loadRelationsForArray` additionally
  returns a trace: the list of invocations of a descriptor's `load`
  function together with the argument each invocation received, each
  tagged with the nesting depth of the hydrate call that issued it (0 for
  the call itself, incremented when a sub-hydration's trace is lifted into
  its parent's).  The first component of the result is the value the TS
  function returns.
* `throw` in the data-access layer is modelled by `Except String`, the
  error carrying the thrown message.
-/

/-- A JavaScript value as it appears in snadi's data flow: a primitive,
`null`, `undefined`, an array, or a plain object whose fields keep
insertion order. -/
inductive Val where
  | vint (n : Int) : Val
  | vstr (s : String) : Val
  | vnull : Val
  | vundef : Val
  | vlist (elems : List Val) : Val
  | vobj (fields : List (String × Val)) : Val

mutual
/-- Structural equality test on `Val`, mutually with its nested lists.
This realises the SameValueZero comparison JS `Map` keys use, for the
first-order values snadi compares. -/
def Val.beq : Val → Val → Bool
  | .vint a, .vint b => a == b
  | .vstr a, .vstr b => a == b
  | .vnull, .vnull => true
  | .vundef, .vundef => true
  | .vlist as, .vlist bs => Val.beqList as bs
  | .vobj fs, .vobj gs => Val.beqFields fs gs
  | _, _ => false
def Val.beqList : List Val → List Val → Bool
  | [], [] => true
  | a :: as, b :: bs => Val.beq a b && Val.beqList as bs
  | _, _ => false
def Val.beqFields : List (String × Val) → List (String × Val) → Bool
  | [], [] => true
  | (k1, v1) :: fs, (k2, v2) :: gs => k1 == k2 && Val.beq v1 v2 && Val.beqFields fs gs
  | _, _ => false
end

mutual
theorem Val.eq_of_beq : ∀ (a b : Val), Val.beq a b = true → a = b
  | .vint a, .vint b, h => by
      have : a = b := by simpa [Val.beq] using h
      rw [this]
  | .vstr a, .vstr b, h => by
      have : a = b := by simpa [Val.beq] using h
      rw [this]
  | .vnull, .vnull, _ => rfl
  | .vundef, .vundef, _ => rfl
  | .vlist as, .vlist bs, h => by
      have : as = bs := Val.eqList_of_beq as bs (by simpa [Val.beq] using h)
      rw [this]
  | .vobj fs, .vobj gs, h => by
      have : fs = gs := Val.eqFields_of_beq fs gs (by simpa [Val.beq] using h)
      rw [this]
  | .vint _, .vstr _, h => nomatch h
  | .vint _, .vnull, h => nomatch h
  | .vint _, .vundef, h => nomatch h
  | .vint _, .vlist _, h => nomatch h
  | .vint _, .vobj _, h => nomatch h
  | .vstr _, .vint _, h => nomatch h
  | .vstr _, .vnull, h => nomatch h
  | .vstr _, .vundef, h => nomatch h
  | .vstr _, .vlist _, h => nomatch h
  | .vstr _, .vobj _, h => nomatch h
  | .vnull, .vint _, h => nomatch h
  | .vnull, .vstr _, h => nomatch h
  | .vnull, .vundef, h => nomatch h
  | .vnull, .vlist _, h => nomatch h
  | .vnull, .vobj _, h => nomatch h
  | .vundef, .vint _, h => nomatch h
  | .vundef, .vstr _, h => nomatch h
  | .vundef, .vnull, h => nomatch h
  | .vundef, .vlist _, h => nomatch h
  | .vundef, .vobj _, h => nomatch h
  | .vlist _, .vint _, h => nomatch h
  | .vlist _, .vstr _, h => nomatch h
  | .vlist _, .vnull, h => nomatch h
  | .vlist _, .vundef, h => nomatch h
  | .vlist _, .vobj _, h => nomatch h
  | .vobj _, .vint _, h => nomatch h
  | .vobj _, .vstr _, h => nomatch h
  | .vobj _, .vnull, h => nomatch h
  | .vobj _, .vundef, h => nomatch h
  | .vobj _, .vlist _, h => nomatch h
theorem Val.eqList_of_beq : ∀ (as bs : List Val), Val.beqList as bs = true → as = bs
  | [], [], _ => rfl
  | a :: as, b :: bs, h => by
      have h1 : Val.beq a b = true ∧ Val.beqList as bs = true := by simpa [Val.beqList] using h
      rw [Val.eq_of_beq a b h1.1, Val.eqList_of_beq as bs h1.2]
  | [], _ :: _, h => nomatch h
  | _ :: _, [], h => nomatch h
theorem Val.eqFields_of_beq : ∀ (fs gs : List (String × Val)), Val.beqFields fs gs = true → fs = gs
  | [], [], _ => rfl
  | (k1, v1) :: fs, (k2, v2) :: gs, h => by
      have h1 : (k1 == k2) = true ∧ Val.beq v1 v2 = true ∧ Val.beqFields fs gs = true := by
        simpa [Val.beqFields, Bool.and_assoc] using h
      have hk : k1 = k2 := by simpa using h1.1
      rw [hk, Val.eq_of_beq v1 v2 h1.2.1, Val.eqFields_of_beq fs gs h1.2.2]
  | [], _ :: _, h => nomatch h
  | _ :: _, [], h => nomatch h
end

mutual
theorem Val.beq_refl : ∀ (a : Val), Val.beq a a = true
  | .vint a => by simp [Val.beq]
  | .vstr a => by simp [Val.beq]
  | .vnull => rfl
  | .vundef => rfl
  | .vlist as => by simpa [Val.beq] using Val.beqList_refl as
  | .vobj fs => by simpa [Val.beq] using Val.beqFields_refl fs
theorem Val.beqList_refl : ∀ (as : List Val), Val.beqList as as = true
  | [] => rfl
  | a :: as => by simp [Val.beqList, Val.beq_refl a, Val.beqList_refl as]
theorem Val.beqFields_refl : ∀ (fs : List (String × Val)), Val.beqFields fs fs = true
  | [] => rfl
  | (k, v) :: fs => by simp [Val.beqFields, Val.beq_refl v, Val.beqFields_refl fs]
end

instance : DecidableEq Val := fun a b =>
  decidable_of_iff (Val.beq a b = true)
    ⟨Val.eq_of_beq a b, fun h => h ▸ Val.beq_refl a⟩

/-- Property lookup on an object's field list: first binding wins
(JS objects have unique keys, so the list is expected duplicate-free). -/
def lookupField : List (String × Val) → String → Option Val
  | [], _ => none
  | (k0, v) :: rest, k => if k0 = k then some v else lookupField rest k

/-- `getField e k` models the JS property read `e[k]`: `none` is
`undefined` (absent property or non-object receiver). -/
def getField : Val → String → Option Val
  | .vobj fields, k => lookupField fields k
  | _, _ => none

/-- Property write on a field list: overwrite in place if the key exists,
else append, matching JS insertion-order semantics. -/
def setFieldList : List (String × Val) → String → Val → List (String × Val)
  | [], k, v => [(k, v)]
  | (k0, v0) :: rest, k, v =>
      if k0 = k then (k0, v) :: rest else (k0, v0) :: setFieldList rest k v

/-- `setField e k v` models the JS property write `e[k] = v`.  Writing on
a non-object is a no-op (the hydrator only ever writes on mapped
entities, which are objects). -/
def setField : Val → String → Val → Val
  | .vobj fields, k, v => .vobj (setFieldList fields k v)
  | other, _, _ => other

/-- Whether a value is a JS object (an entity the hydrator can mutate). -/
def isObj : Val → Bool
  | .vobj _ => true
  | _ => false

/-- `Array.isArray`. -/
def isArray : Val → Bool
  | .vlist _ => true
  | _ => false

/-- The JS loose check `x == null`, true exactly for `null` and `undefined`. -/
def isNullish : Val → Bool
  | .vnull => true
  | .vundef => true
  | _ => false

/-! ## The core (packages/core/src/index.ts) -/

/-- `EntityDefinition` / `Mappable`: the single capability of converting a
raw row value into a domain entity value (`toEntity`). -/
structure EntityDefinition where
  toEntity : Val → Val

/-- A relationship descriptor (`OneRelationship` / `ManyRelationship`):
`otherEntity` maps raw related rows to entities, `load` fetches the raw
related rows for a whole batch of local entities, and `attach`, given all
mapped related entities, produces the per-local-entity accessor.  In the
untyped value model the one/many distinction lives in the `Val` that
`attach`'s accessor returns (nullable entity vs. array). -/
structure Relationship where
  otherEntity : EntityDefinition
  load : List Val → List Val
  attach : List Val → Val → Val

/-- `RelationsToLoad`: a relationship-to-load map, entry by entry.  An
entry is either a bare descriptor (`relEntry`) or a descriptor paired with
a nested relationship map (`nestedEntry`), mirroring
`Relationship | [Relationship, RelationsToLoad]`. -/
inductive RelationsToLoad where
  | nil : RelationsToLoad
  | relEntry (key : String) (rel : Relationship) (rest : RelationsToLoad) : RelationsToLoad
  | nestedEntry (key : String) (rel : Relationship) (subs : RelationsToLoad)
      (rest : RelationsToLoad) : RelationsToLoad

/-- Whether the map has no keys (`Object.keys(subrelations).length` = 0). -/
def RelationsToLoad.isNil : RelationsToLoad → Bool
  | .nil => true
  | _ => false

/-- The property keys a relationship map requests. -/
def relKeys : RelationsToLoad → List String
  | .nil => []
  | .relEntry k _ rest => k :: relKeys rest
  | .nestedEntry k _ _ rest => k :: relKeys rest

/-- `mapToEntity(entityDef, data)`: apply the conversion capability. -/
def mapToEntity (entityDef : EntityDefinition) (data : Val) : Val :=
  entityDef.toEntity data

/-- `mapArrayToEntity(entityDef, arr)`: the source's push loop
`for await (const data of arr) result.push(await entityDef.toEntity(data))`,
embedded as a left fold that appends one converted element per yielded
element. -/
def mapArrayToEntity (entityDef : EntityDefinition) (arr : List Val) : List Val :=
  arr.foldl (fun result data => result ++ [entityDef.toEntity data]) []

/-- One recorded invocation of a descriptor's `load`: the nesting depth of
the hydrate call that issued it (0 for the call whose trace is inspected,
incremented each time the trace is lifted into the enclosing call's
trace), together with the relationship key it was issued for and the
entities array it was passed. -/
abbrev LoadCall := Nat × (String × List Val)

/-- `loadRelationsForArray(entities, relations)`.  For each entry
`key -> (relationship, subrelations?)`: invoke `relationship.load` once
with the entities array, convert each yielded raw row with
`otherEntity.toEntity` (the push loop), recursively hydrate the loaded
entities when the nested map is non-empty, build the accessor with
`attach`, and write property `key` on every entity of the original array.
The second component is the trace of `load` invocations: the call records
its own invocations at depth 0 and lifts the trace of each recursive
sub-relationship hydration with the depth incremented. -/
def loadRelationsForArray : List Val → RelationsToLoad → List Val × List LoadCall
  | entities, .nil => (entities, [])
  | entities, .relEntry key relationship rest =>
      let loadedEntities := (relationship.load entities).foldl
        (fun acc data => acc ++ [relationship.otherEntity.toEntity data]) []
      let attachFn := relationship.attach loadedEntities
      let restRes := loadRelationsForArray entities rest
      (restRes.1.map fun entity => setField entity key (attachFn entity),
        (0, (key, entities)) :: restRes.2)
  | entities, .nestedEntry key relationship subrelations rest =>
      let loadedEntities := (relationship.load entities).foldl
        (fun acc data => acc ++ [relationship.otherEntity.toEntity data]) []
      let sub := if subrelations.isNil then (loadedEntities, ([] : List LoadCall))
        else loadRelationsForArray loadedEntities subrelations
      let attachFn := relationship.attach sub.1
      let restRes := loadRelationsForArray entities rest
      (restRes.1.map fun entity => setField entity key (attachFn entity),
        (0, (key, entities)) :: (sub.2.map (fun c => (c.1 + 1, c.2)) ++ restRes.2))

/-- `loadRelationsForEntity(entity, relations)`:
`(await loadRelationsForArray([entity], relations))[0]`. -/
def loadRelationsForEntity (entity : Val) (relations : RelationsToLoad) :
    Val × List LoadCall :=
  let res := loadRelationsForArray [entity] relations
  (res.1.getD 0 Val.vundef, res.2)

/-! ## The knex adapter (packages/knex/src/index.ts) -/

/-- The distinct key set `new Set(localEntities.map(e => e[localField]))`,
as an insertion-ordered duplicate-free list.  `none` is the key
`undefined` contributed by an entity lacking the field. -/
def dedupKeys (keys : List (Option Val)) : List (Option Val) :=
  keys.foldl (fun acc k => if k ∈ acc then acc else acc ++ [k]) []

/-- The batched `load` both `hasOne` and `hasMany` construct: collect the
distinct local key values; if there are none, return `[]` without
querying; otherwise run
`knex(otherEntityDef.tableName).whereIn(otherField, keys).select()`,
modelled as filtering the other table's rows, in row order, to those whose
`otherField` value is among the keys. -/
def adapterLoad (table : List Val) (localField otherField : String)
    (localEntities : List Val) : List Val :=
  let keys := dedupKeys (localEntities.map fun e => getField e localField)
  if keys.isEmpty then []
  else table.filter fun row => decide (getField row otherField ∈ keys)

/-- How many database queries one `adapterLoad` call issues: the
empty-key-set branch returns `[]` without touching the database, the
other branch issues exactly one `whereIn` query. -/
def adapterLoadQueryCount (localField : String) (localEntities : List Val) : Nat :=
  let keys := dedupKeys (localEntities.map fun e => getField e localField)
  if keys.isEmpty then 0 else 1

/-- `Map.set`-style insert: overwrite the entry with an equal key, else
append a new entry, preserving JS `Map` insertion order. -/
def mapSet {α : Type} : List (Option Val × α) → Option Val → α → List (Option Val × α)
  | [], k, v => [(k, v)]
  | (k0, v0) :: rest, k, v =>
      if k0 = k then (k0, v) :: rest else (k0, v0) :: mapSet rest k v

/-- `Map.get`: the value at an equal key, if any. -/
def mapGet {α : Type} : List (Option Val × α) → Option Val → Option α
  | [], _ => none
  | (k0, v) :: rest, k => if k0 = k then some v else mapGet rest k

/-- The `otherEntitiesByKey` map `hasOne`'s attach builds:
`map.set(otherEntity[otherField], otherEntity)` over the loaded entities
in order, so a later duplicate key overwrites an earlier one. -/
def oneByKey (otherField : String) (otherEntities : List Val) :
    List (Option Val × Val) :=
  otherEntities.foldl
    (fun m otherEntity => mapSet m (getField otherEntity otherField) otherEntity) []

/-- `hasOne`'s accessor: look the local entity's `localField` value up in
`oneByKey` and default to `null` (`?? null`). -/
def hasOneAttach (localField otherField : String) (otherEntities : List Val)
    (localEntity : Val) : Val :=
  (mapGet (oneByKey otherField otherEntities) (getField localEntity localField)).getD
    Val.vnull

/-- The grouping step of `hasMany`'s attach:
`if (!map.has(key)) map.set(key, []); map.get(key).push(otherEntity)` —
append to the group with an equal key, else append a new singleton
group. -/
def pushGroup : List (Option Val × List Val) → Option Val → Val →
    List (Option Val × List Val)
  | [], k, v => [(k, [v])]
  | (k0, l) :: rest, k, v =>
      if k0 = k then (k0, l ++ [v]) :: rest else (k0, l) :: pushGroup rest k v

/-- The `otherEntitiesByKey` map `hasMany`'s attach builds, grouping the
loaded entities by their `otherField` value in load order. -/
def manyByKey (otherField : String) (otherEntities : List Val) :
    List (Option Val × List Val) :=
  otherEntities.foldl
    (fun m otherEntity => pushGroup m (getField otherEntity otherField) otherEntity) []

/-- `hasMany`'s accessor: the group at the local entity's `localField`
value, defaulting to the empty array (`?? []`). -/
def hasManyAttach (localField otherField : String) (otherEntities : List Val)
    (localEntity : Val) : Val :=
  Val.vlist ((mapGet (manyByKey otherField otherEntities)
    (getField localEntity localField)).getD [])

/-- The `OneRelationship` `hasOne(localEntityDef, localField,
otherEntityDef, otherField)(orm)` builds.  `localEntityDef` is a
type-level hint only in the source and is omitted; the orm/table name pair
becomes the other table's row list. -/
def hasOne (localField : String) (otherEntityDef : EntityDefinition)
    (otherTable : List Val) (otherField : String) : Relationship where
  otherEntity := otherEntityDef
  load := adapterLoad otherTable localField otherField
  attach := fun otherEntities => hasOneAttach localField otherField otherEntities

/-- The `ManyRelationship` `hasMany(localEntityDef, localField,
otherEntityDef, otherField)(orm)` builds. -/
def hasMany (localField : String) (otherEntityDef : EntityDefinition)
    (otherTable : List Val) (otherField : String) : Relationship where
  otherEntity := otherEntityDef
  load := adapterLoad otherTable localField otherField
  attach := fun otherEntities => hasManyAttach localField otherField otherEntities

/-- `KnexOrm.loadOne(entityDef, promise, relations?)`, applied to the
value the promise resolved to: throw if it is an array, return `null` (and
do nothing else) if it is `null`/`undefined`, otherwise map the row and
hydrate when a relations map was given. -/
def loadOne (entityDef : EntityDefinition) (row : Val)
    (relations : Option RelationsToLoad) : Except String (Val × List LoadCall) :=
  if isArray row then
    .error "load function of loadOne() should return a single row, got an array instead"
  else if isNullish row then
    .ok (Val.vnull, [])
  else
    let entity := mapToEntity entityDef row
    match relations with
    | some rels => .ok (loadRelationsForEntity entity rels)
    | none => .ok (entity, [])

/-- `KnexOrm.loadMany(entityDef, promise, relations?)`, applied to the
value the promise resolved to: throw if it is not an array, otherwise map
the rows and hydrate when a relations map was given. -/
def loadMany (entityDef : EntityDefinition) (rows : Val)
    (relations : Option RelationsToLoad) :
    Except String (List Val × List LoadCall) :=
  match rows with
  | .vlist rawRows =>
      let entities := mapArrayToEntity entityDef rawRows
      match relations with
      | some rels => .ok (loadRelationsForArray entities rels)
      | none => .ok (entities, [])
  | _ => .error "load function of loadMany() should return an array of rows, got a non-array instead"

/-- `KnexOrm.getOne(entityDef, builder, relations?)` delegates to
`loadOne` on `builder(knex(tableName)).first()`; knex's `.first()` adds
`limit 1` and resolves to the first row the query yields, or `undefined`
when it yields none, modelled by `headD` over the query's rows. -/
def getOne (entityDef : EntityDefinition) (queryRows : List Val)
    (relations : Option RelationsToLoad) : Except String (Val × List LoadCall) :=
  loadOne entityDef (queryRows.headD Val.vundef) relations

/-- An entity definition whose conversion is the identity, as used to
instantiate scenarios (`toEntity` is externally supplied configuration). -/
def idEntityDef : EntityDefinition where
  toEntity := fun raw => raw

/-! ## Basic lemmas about the value model and the mapper -/

theorem pushLoop_eq_map (f : Val → Val) :
    ∀ (l acc : List Val), l.foldl (fun acc data => acc ++ [f data]) acc = acc ++ l.map f
  | [], acc => by simp
  | d :: l, acc => by
      simp [List.foldl_cons, pushLoop_eq_map f l (acc ++ [f d])]

/-- The push loop of `mapArrayToEntity` converts elements one by one in
input order. -/
theorem mapArrayToEntity_eq_map (entityDef : EntityDefinition) (arr : List Val) :
    mapArrayToEntity entityDef arr = arr.map entityDef.toEntity := by
  simpa [mapArrayToEntity] using pushLoop_eq_map entityDef.toEntity arr []

theorem lookupField_setFieldList_self (k : String) (v : Val) :
    ∀ (fs : List (String × Val)), lookupField (setFieldList fs k v) k = some v
  | [] => by simp [setFieldList, lookupField]
  | (k0, v0) :: rest => by
      by_cases h : k0 = k
      · simp [setFieldList, lookupField, h]
      · simp [setFieldList, lookupField, h, lookupField_setFieldList_self k v rest]

theorem lookupField_setFieldList_ne (k : String) (v : Val) {f : String} (hf : f ≠ k) :
    ∀ (fs : List (String × Val)), lookupField (setFieldList fs k v) f = lookupField fs f
  | [] => by simp [setFieldList, lookupField, Ne.symm hf]
  | (k0, v0) :: rest => by
      by_cases h : k0 = k
      · simp [setFieldList, lookupField, h, Ne.symm hf]
      · by_cases h2 : k0 = f
        · simp [setFieldList, lookupField, h, h2, hf]
        · simp [setFieldList, lookupField, h, h2, lookupField_setFieldList_ne k v hf rest]

theorem getField_setField_self {e : Val} (he : isObj e = true) (k : String) (v : Val) :
    getField (setField e k v) k = some v := by
  cases e <;> simp_all [isObj, setField, getField, lookupField_setFieldList_self]

theorem getField_setField_ne (e : Val) (k : String) (v : Val) {f : String} (hf : f ≠ k) :
    getField (setField e k v) f = getField e f := by
  cases e <;> simp [setField, getField, lookupField_setFieldList_ne k v hf]

theorem isObj_setField (e : Val) (k : String) (v : Val) :
    isObj (setField e k v) = isObj e := by
  cases e <;> simp [setField, isObj]

theorem isSome_getField_setField {e : Val} {f : String} (k : String) (v : Val)
    (h : (getField e f).isSome = true) :
    (getField (setField e k v) f).isSome = true := by
  by_cases hf : f = k
  · subst hf
    cases e <;> simp_all [setField, getField, lookupField_setFieldList_self]
  · rwa [getField_setField_ne e k v hf]

/-! ## Lemmas about the key maps the adapter attaches build -/

theorem mapGet_mapSet {α : Type} (k0 k : Option Val) (v : α) :
    ∀ (m : List (Option Val × α)),
      mapGet (mapSet m k0 v) k = if k0 = k then some v else mapGet m k
  | [] => by by_cases h : k0 = k <;> simp [mapSet, mapGet, h]
  | (k1, v1) :: rest => by
      by_cases h1 : k1 = k0
      · subst h1
        by_cases h : k1 = k <;> simp [mapSet, mapGet, h]
      · by_cases h : k1 = k
        · subst h
          have : ¬ k0 = k1 := fun hh => h1 hh.symm
          simp [mapSet, mapGet, h1, this]
        · simp [mapSet, mapGet, h1, h, mapGet_mapSet k0 k v rest]

theorem mapGet_pushGroup (k0 k : Option Val) (v : Val) :
    ∀ (m : List (Option Val × List Val)),
      mapGet (pushGroup m k0 v) k =
        if k0 = k then some ((mapGet m k).getD [] ++ [v]) else mapGet m k
  | [] => by by_cases h : k0 = k <;> simp [pushGroup, mapGet, h]
  | (k1, l1) :: rest => by
      by_cases h1 : k1 = k0
      · subst h1
        by_cases h : k1 = k <;> simp [pushGroup, mapGet, h]
      · by_cases h : k1 = k
        · subst h
          have : ¬ k0 = k1 := fun hh => h1 hh.symm
          simp [pushGroup, mapGet, h1, this]
        · simp [pushGroup, mapGet, h1, h, mapGet_pushGroup k0 k v rest]

/-- The `hasOne` lookup map sends a key to the last loaded entity whose
`otherField` equals it. -/
theorem mapGet_oneByKey (otherField : String) (k : Option Val) (others : List Val) :
    mapGet (oneByKey otherField others) k =
      (others.filter fun o => decide (getField o otherField = k)).getLast? := by
  induction others using List.reverseRecOn with
  | nil => simp [oneByKey, mapGet]
  | append_singleton l o ih =>
      have hstep : oneByKey otherField (l ++ [o])
          = mapSet (oneByKey otherField l) (getField o otherField) o := by
        simp [oneByKey, List.foldl_append]
      by_cases h : getField o otherField = k
      · simp [hstep, mapGet_mapSet, h, List.filter_append, List.getLast?_concat]
      · simp [hstep, mapGet_mapSet, h, List.filter_append, ih]

/-- The `hasMany` grouping map sends a key to the loaded entities whose
`otherField` equals it, in load order; keys with no matches are absent. -/
theorem mapGet_manyByKey (otherField : String) (k : Option Val) (others : List Val) :
    mapGet (manyByKey otherField others) k =
      (fun fl => if fl.isEmpty then none else some fl)
        (others.filter fun o => decide (getField o otherField = k)) := by
  induction others using List.reverseRecOn with
  | nil => simp [manyByKey, mapGet]
  | append_singleton l o ih =>
      have hstep : manyByKey otherField (l ++ [o])
          = pushGroup (manyByKey otherField l) (getField o otherField) o := by
        simp [manyByKey, List.foldl_append]
      by_cases h : getField o otherField = k
      · rcases hfl : (l.filter fun o => decide (getField o otherField = k)) with _ | ⟨x, xs⟩
        · simp [hstep, mapGet_pushGroup, h, List.filter_append, ih, hfl]
        · simp [hstep, mapGet_pushGroup, h, List.filter_append, ih, hfl]
      · simp [hstep, mapGet_pushGroup, h, List.filter_append, ih]

/-- `hasMany`'s accessor returns exactly the loaded entities whose
`otherField` value equals the local entity's `localField` value, in load
order. -/
theorem hasManyAttach_eq_filter (localField otherField : String)
    (others : List Val) (localEntity : Val) :
    hasManyAttach localField otherField others localEntity =
      Val.vlist (others.filter fun o =>
        decide (getField o otherField = getField localEntity localField)) := by
  rw [hasManyAttach, mapGet_manyByKey]
  rcases hfl : (others.filter fun o =>
      decide (getField o otherField = getField localEntity localField)) with _ | ⟨x, xs⟩
  · simp
  · simp

/-- `hasOne`'s accessor returns the last loaded entity (in load order)
whose `otherField` value equals the local entity's `localField` value,
defaulting to `null`. -/
theorem hasOneAttach_eq_getLast (localField otherField : String)
    (others : List Val) (localEntity : Val) :
    hasOneAttach localField otherField others localEntity =
      ((others.filter fun o =>
        decide (getField o otherField = getField localEntity localField)).getLast?).getD
          Val.vnull := by
  rw [hasOneAttach, mapGet_oneByKey]

/-! ## Lemmas about the hydration algorithm -/

theorem loadRelationsForArray_relEntry (entities : List Val) (k : String)
    (rel : Relationship) (rest : RelationsToLoad) :
    loadRelationsForArray entities (.relEntry k rel rest)
      = ((loadRelationsForArray entities rest).1.map fun entity =>
          setField entity k
            (rel.attach ((rel.load entities).map rel.otherEntity.toEntity) entity),
        (0, (k, entities)) :: (loadRelationsForArray entities rest).2) := by
  simp [loadRelationsForArray, pushLoop_eq_map]

theorem loadRelationsForArray_nestedEntry (entities : List Val) (k : String)
    (rel : Relationship) {subs : RelationsToLoad} (rest : RelationsToLoad)
    (hs : subs.isNil = false) :
    loadRelationsForArray entities (.nestedEntry k rel subs rest)
      = ((loadRelationsForArray entities rest).1.map fun entity =>
          setField entity k
            (rel.attach (loadRelationsForArray
              ((rel.load entities).map rel.otherEntity.toEntity) subs).1 entity),
        (0, (k, entities)) ::
          ((loadRelationsForArray
              ((rel.load entities).map rel.otherEntity.toEntity) subs).2.map
                (fun c => (c.1 + 1, c.2))
            ++ (loadRelationsForArray entities rest).2)) := by
  simp [loadRelationsForArray, pushLoop_eq_map, hs]

theorem length_loadRelationsForArray (entities : List Val) :
    ∀ (rels : RelationsToLoad),
      (loadRelationsForArray entities rels).1.length = entities.length
  | .nil => rfl
  | .relEntry k rel rest => by
      simp [loadRelationsForArray, length_loadRelationsForArray entities rest]
  | .nestedEntry k rel subs rest => by
      simp [loadRelationsForArray, length_loadRelationsForArray entities rest]

/-- Hydration writes only the requested relationship keys: any other
property reads the same on each returned entity as on the entity passed
in (position by position). -/
theorem getField_map_loadRelationsForArray (entities : List Val) {f : String} :
    ∀ (rels : RelationsToLoad), f ∉ relKeys rels →
      (loadRelationsForArray entities rels).1.map (fun e => getField e f)
        = entities.map fun e => getField e f
  | .nil, _ => rfl
  | .relEntry k rel rest, hf => by
      have hfk : f ≠ k := by
        intro hh
        exact hf (by simp [relKeys, hh])
      have hrest : f ∉ relKeys rest := fun hh => hf (by simp [relKeys, hh])
      rw [loadRelationsForArray_relEntry, List.map_map]
      calc (loadRelationsForArray entities rest).1.map _
          = (loadRelationsForArray entities rest).1.map fun e => getField e f :=
            List.map_congr_left fun e _ => getField_setField_ne e k _ hfk
        _ = entities.map fun e => getField e f :=
            getField_map_loadRelationsForArray entities rest hrest
  | .nestedEntry k rel subs rest, hf => by
      have hfk : f ≠ k := by
        intro hh
        exact hf (by simp [relKeys, hh])
      have hrest : f ∉ relKeys rest := fun hh => hf (by simp [relKeys, hh])
      show ((loadRelationsForArray entities rest).1.map _).map _ = _
      rw [List.map_map]
      calc (loadRelationsForArray entities rest).1.map _
          = (loadRelationsForArray entities rest).1.map fun e => getField e f :=
            List.map_congr_left fun e _ => getField_setField_ne e k _ hfk
        _ = entities.map fun e => getField e f :=
            getField_map_loadRelationsForArray entities rest hrest

/-- Hydration keeps entities objects. -/
theorem isObj_loadRelationsForArray (entities : List Val)
    (hobj : ∀ e ∈ entities, isObj e = true) :
    ∀ (rels : RelationsToLoad),
      ∀ e' ∈ (loadRelationsForArray entities rels).1, isObj e' = true
  | .nil => by simpa [loadRelationsForArray] using hobj
  | .relEntry k rel rest => by
      intro e' he'
      rw [loadRelationsForArray_relEntry] at he'
      obtain ⟨x, hx, rfl⟩ := List.mem_map.mp he'
      rw [isObj_setField]
      exact isObj_loadRelationsForArray entities hobj rest x hx
  | .nestedEntry k rel subs rest => by
      intro e' he'
      obtain ⟨x, hx, rfl⟩ := List.mem_map.mp he'
      rw [isObj_setField]
      exact isObj_loadRelationsForArray entities hobj rest x hx

/-- After hydration every returned entity carries every requested
relationship key. -/
theorem hasField_loadRelationsForArray (entities : List Val)
    (hobj : ∀ e ∈ entities, isObj e = true) :
    ∀ (rels : RelationsToLoad), ∀ k ∈ relKeys rels,
      ∀ e' ∈ (loadRelationsForArray entities rels).1, (getField e' k).isSome = true
  | .nil => by simp [relKeys]
  | .relEntry k0 rel rest => by
      intro k hk e' he'
      rw [loadRelationsForArray_relEntry] at he'
      obtain ⟨x, hx, rfl⟩ := List.mem_map.mp he'
      rcases List.mem_cons.mp (by simpa [relKeys] using hk) with hk0 | hkrest
      · subst hk0
        rw [getField_setField_self (isObj_loadRelationsForArray entities hobj rest x hx)]
        rfl
      · exact isSome_getField_setField k0 _
          (hasField_loadRelationsForArray entities hobj rest k hkrest x hx)
  | .nestedEntry k0 rel subs rest => by
      intro k hk e' he'
      obtain ⟨x, hx, rfl⟩ := List.mem_map.mp he'
      rcases List.mem_cons.mp (by simpa [relKeys] using hk) with hk0 | hkrest
      · subst hk0
        rw [getField_setField_self (isObj_loadRelationsForArray entities hobj rest x hx)]
        rfl
      · exact isSome_getField_setField k0 _
          (hasField_loadRelationsForArray entities hobj rest k hkrest x hx)

/-- The `load` invocations a hydrate call issues itself (depth 0 of its
trace), as (key, passed entities) pairs, excluding those issued by its
recursive sub-relationship hydrate calls. -/
def ownLoadCalls (trace : List LoadCall) : List (String × List Val) :=
  trace.filterMap fun c => if c.1 = 0 then some c.2 else none

theorem ownLoadCalls_cons_zero (kv : String × List Val) (tr : List LoadCall) :
    ownLoadCalls ((0, kv) :: tr) = kv :: ownLoadCalls tr := by
  simp [ownLoadCalls, List.filterMap_cons]

theorem ownLoadCalls_append (tr1 tr2 : List LoadCall) :
    ownLoadCalls (tr1 ++ tr2) = ownLoadCalls tr1 ++ ownLoadCalls tr2 := by
  simp [ownLoadCalls, List.filterMap_append]

theorem ownLoadCalls_lift (tr : List LoadCall) :
    ownLoadCalls (tr.map fun c => (c.1 + 1, c.2)) = [] := by
  induction tr with
  | nil => rfl
  | cons c tr ih => simp [ownLoadCalls, List.filterMap_cons, ih]

/-- Every hydrate call — over any entities array and any relationship
map, nested entries included — invokes each relationship key's `load`
exactly once, in map order, passing it the entire entities array.
(Recursive sub-hydrations are hydrate calls themselves, covered by the
same statement at their own entities array.) -/
theorem ownLoadCalls_loadRelationsForArray (entities : List Val) :
    ∀ rels : RelationsToLoad,
      ownLoadCalls (loadRelationsForArray entities rels).2
        = (relKeys rels).map fun k => (k, entities)
  | .nil => rfl
  | .relEntry k rel rest => by
      rw [loadRelationsForArray_relEntry]
      show ownLoadCalls ((0, (k, entities)) :: (loadRelationsForArray entities rest).2) = _
      rw [ownLoadCalls_cons_zero, ownLoadCalls_loadRelationsForArray entities rest]
      simp [relKeys]
  | .nestedEntry k rel .nil rest => by
      show ownLoadCalls ((0, (k, entities)) :: (loadRelationsForArray entities rest).2) = _
      rw [ownLoadCalls_cons_zero, ownLoadCalls_loadRelationsForArray entities rest]
      simp [relKeys]
  | .nestedEntry k rel (.relEntry k2 rel2 rest2) rest => by
      rw [@loadRelationsForArray_nestedEntry entities k rel
        (.relEntry k2 rel2 rest2) rest rfl]
      rw [ownLoadCalls_cons_zero, ownLoadCalls_append, ownLoadCalls_lift,
        ownLoadCalls_loadRelationsForArray entities rest]
      simp [relKeys]
  | .nestedEntry k rel (.nestedEntry k2 rel2 subs2 rest2) rest => by
      rw [@loadRelationsForArray_nestedEntry entities k rel
        (.nestedEntry k2 rel2 subs2 rest2) rest rfl]
      rw [ownLoadCalls_cons_zero, ownLoadCalls_append, ownLoadCalls_lift,
        ownLoadCalls_loadRelationsForArray entities rest]
      simp [relKeys]

/-! ## Concrete scenario data -/

/-- Scenario entity `Bookstore{id:1}`. -/
def bookstore1 : Val := .vobj [("id", .vint 1)]

/-- Scenario entity `Bookstore{id:2}`. -/
def bookstore2 : Val := .vobj [("id", .vint 2)]

/-- A raw `Book` row with the given id and bookstore id. -/
def bookRow (i bsId : Int) : Val := .vobj [("id", .vint i), ("bookstore_id", .vint bsId)]

/-- Scenario books table: `Book{id:10,bookstore_id:1}`,
`Book{id:11,bookstore_id:2}`, `Book{id:12,bookstore_id:1}`. -/
def booksTable : List Val := [bookRow 10 1, bookRow 11 2, bookRow 12 1]

/-- The bookstore→books `hasMany` relationship over the scenario table. -/
def bookstoreBooks : Relationship := hasMany "id" idEntityDef booksTable "bookstore_id"

/-- Scenario entity `Book{id:10,author_id:5}`. -/
def book10 : Val := .vobj [("id", .vint 10), ("author_id", .vint 5)]

/-- An author row whose id (6) matches no scenario book. -/
def author6 : Val := .vobj [("id", .vint 6)]

/-- Scenario book row carrying author and bookstore keys. -/
def bookD : Val := .vobj [("id", .vint 10), ("author_id", .vint 5), ("bookstore_id", .vint 1)]

/-- Scenario entity `Author{id:5}`. -/
def author5 : Val := .vobj [("id", .vint 5)]

/-- Scenario D relationship map: bookstore→books→author→books, cycling
back through the same relation type. -/
def cyclicRels : RelationsToLoad :=
  .nestedEntry "books" (hasMany "id" idEntityDef [bookD] "bookstore_id")
    (.nestedEntry "author" (hasOne "author_id" idEntityDef [author5] "id")
      (.relEntry "books" (hasMany "id" idEntityDef [bookD] "author_id") .nil) .nil)
    .nil

/-- Two book-details rows sharing the join key `book_id = 7`. -/
def details100 : Val := .vobj [("id", .vint 100), ("book_id", .vint 7)]

/-- See `details100`. -/
def details200 : Val := .vobj [("id", .vint 200), ("book_id", .vint 7)]

/-! ## The claims -/

/-- C9: `mapArrayToEntity` (`mapMany`) over any finite row sequence
`[r1, ..., rn]` yields `[toEntity r1, ..., toEntity rn]`, converting the
elements one by one in input order; empty input yields the empty list and
no error. -/
theorem claim9_mapArrayToEntity_order :
    (∀ (entityDef : EntityDefinition) (arr : List Val),
      mapArrayToEntity entityDef arr = arr.map entityDef.toEntity) ∧
    (∀ entityDef : EntityDefinition, mapArrayToEntity entityDef [] = []) :=
  ⟨mapArrayToEntity_eq_map, fun _ => rfl⟩

/-- C2: for a relationship built by `hasMany`, the list attached to a
local entity is exactly the loaded related entities whose `otherField`
value equals the local entity's `localField` value, in the order the rows
were yielded by `load`; in Scenario A, bookstore 1 gets books 10 and 12
(in that order) and bookstore 2 gets book 11. -/
theorem claim2_hasMany_key_fidelity :
    (∀ (localField otherField : String) (others : List Val) (localEntity : Val),
      hasManyAttach localField otherField others localEntity =
        Val.vlist (others.filter fun o =>
          decide (getField o otherField = getField localEntity localField))) ∧
    (loadRelationsForArray [bookstore1, bookstore2]
        (.relEntry "books" bookstoreBooks .nil)).1
      = [Val.vobj [("id", .vint 1), ("books", .vlist [bookRow 10 1, bookRow 12 1])],
         Val.vobj [("id", .vint 2), ("books", .vlist [bookRow 11 2])]] :=
  ⟨hasManyAttach_eq_filter, by decide⟩

/-- C8: the lookup map built by `hasOne`'s attach keeps, for each key, the
last loaded entity with that `otherField` value (last write wins), so a
local entity whose `localField` value has duplicate matches is attached
the last-yielded duplicate; concretely, two detail rows with the same
`book_id` attach the second one. -/
theorem claim8_hasOne_last_write_wins :
    (∀ (localField otherField : String) (others : List Val) (localEntity : Val),
      hasOneAttach localField otherField others localEntity =
        ((others.filter fun o =>
          decide (getField o otherField = getField localEntity localField)).getLast?).getD
            Val.vnull) ∧
    hasOneAttach "id" "book_id" [details100, details200] (Val.vobj [("id", .vint 7)])
      = details200 :=
  ⟨hasOneAttach_eq_getLast, by decide⟩

/-- C6: when the fetch of a get-one operation resolves to a missing row
(`null`/`undefined`), `loadOne` returns `null` without error, without
invoking the entity conversion (the result is the same for every
`entityDef`), and without issuing any relationship load (the trace is
empty and the result is the same for every relations map). -/
theorem claim6_loadOne_null_row :
    ∀ (entityDef : EntityDefinition) (relations : Option RelationsToLoad),
      loadOne entityDef Val.vnull relations = .ok (Val.vnull, []) ∧
      loadOne entityDef Val.vundef relations = .ok (Val.vnull, []) :=
  fun _ _ => ⟨rfl, rfl⟩

/-- C5: when the fetch of a get-one operation yields more than one row
(resolves to an array), `loadOne` throws the distinguishable error
identifying the violated single-row contract and never returns the first
row. -/
theorem claim5_loadOne_rejects_multiple_rows (entityDef : EntityDefinition)
    (rows : List Val) (relations : Option RelationsToLoad)
    (hrows : 1 < rows.length) :
    loadOne entityDef (Val.vlist rows) relations
      = .error "load function of loadOne() should return a single row, got an array instead" :=
  rfl

theorem claim5_witness :
    1 < [Val.vobj [("id", Val.vint 1)], Val.vobj [("id", Val.vint 2)]].length ∧
    loadOne idEntityDef
        (Val.vlist [Val.vobj [("id", Val.vint 1)], Val.vobj [("id", Val.vint 2)]]) none
      = .error "load function of loadOne() should return a single row, got an array instead" :=
  ⟨by decide,
    claim5_loadOne_rejects_multiple_rows idEntityDef
      [Val.vobj [("id", Val.vint 1)], Val.vobj [("id", Val.vint 2)]] none (by decide)⟩

/-- C7: `loadMany` throws the distinguishable error identifying the
violated array contract whenever its fetch resolves to a non-array, and
succeeds (no such error) whenever it resolves to an array. -/
theorem claim7_loadMany_array_check :
    (∀ (entityDef : EntityDefinition) (rows : Val) (relations : Option RelationsToLoad),
      isArray rows = false →
      loadMany entityDef rows relations
        = .error "load function of loadMany() should return an array of rows, got a non-array instead") ∧
    (∀ (entityDef : EntityDefinition) (rawRows : List Val)
        (relations : Option RelationsToLoad),
      ∃ res, loadMany entityDef (Val.vlist rawRows) relations = .ok res) := by
  constructor
  · intro entityDef rows relations h
    cases rows <;> simp_all [isArray, loadMany]
  · intro entityDef rawRows relations
    cases relations <;> exact ⟨_, rfl⟩

theorem claim7_witness :
    (isArray (Val.vint 3) = false ∧
      loadMany idEntityDef (Val.vint 3) none
        = .error "load function of loadMany() should return an array of rows, got a non-array instead") ∧
    ∃ res, loadMany idEntityDef (Val.vlist [Val.vobj [("id", Val.vint 1)]]) none
      = .ok res :=
  ⟨⟨by decide, claim7_loadMany_array_check.1 idEntityDef (Val.vint 3) none (by decide)⟩,
    claim7_loadMany_array_check.2 idEntityDef [Val.vobj [("id", Val.vint 1)]] none⟩

/-- C1 counterexample: hydrating zero entities still invokes the
relationship's `load` — once, passed the empty array — so it is false
that for N = 0 the load function is not invoked at all. -/
theorem claim1_counterexample :
    (loadRelationsForArray [] (.relEntry "books" bookstoreBooks .nil)).2
        = [(0, ("books", ([] : List Val)))] ∧
    (loadRelationsForArray [] (.relEntry "books" bookstoreBooks .nil)).2 ≠ [] :=
  ⟨by decide, by decide⟩

/-- C1 (amended): every hydrate call — over any entities array and any
relationship map, nested entries included — invokes each of its
relationship keys' `load` exactly once (the invocations the call issues
itself are exactly one per key, in map order), passed the entire entities
array, never per entity, regardless of N; recursive sub-hydrations are
hydrate calls themselves, covered by the same statement at their own
entities array.  This includes N = 0, where `load` receives the empty
array; in that case the adapter-built `load` returns the empty set
without issuing any database query, and hydration returns an empty
entity set. -/
theorem claim1_batching_amended :
    (∀ (entities : List Val) (rels : RelationsToLoad),
      ownLoadCalls (loadRelationsForArray entities rels).2
        = (relKeys rels).map fun k => (k, entities)) ∧
    (∀ (table : List Val) (localField otherField : String),
      adapterLoad table localField otherField [] = [] ∧
      adapterLoadQueryCount localField [] = 0) ∧
    (∀ rels : RelationsToLoad, (loadRelationsForArray [] rels).1 = []) :=
  ⟨fun entities => ownLoadCalls_loadRelationsForArray entities,
    fun _ _ _ => ⟨rfl, rfl⟩,
    fun rels => List.length_eq_zero.mp (length_loadRelationsForArray [] rels)⟩

theorem claim1_witness :
    (ownLoadCalls (loadRelationsForArray [bookstore1, bookstore2]
        (.relEntry "books" bookstoreBooks .nil)).2
      = [("books", [bookstore1, bookstore2])]) ∧
    (ownLoadCalls (loadRelationsForArray [bookstore1] cyclicRels).2
      = [("books", [bookstore1])]) ∧
    (adapterLoad booksTable "id" "bookstore_id" [] = [] ∧
      adapterLoadQueryCount "id" [] = 0) ∧
    (loadRelationsForArray [] cyclicRels).1 = [] :=
  ⟨(claim1_batching_amended.1 [bookstore1, bookstore2]
      (.relEntry "books" bookstoreBooks .nil)).trans (by decide),
    (claim1_batching_amended.1 [bookstore1] cyclicRels).trans (by decide),
    claim1_batching_amended.2.1 booksTable "id" "bookstore_id",
    claim1_batching_amended.2.2 cyclicRels⟩

/-- C10: hydration returns the entities array it was given — same length
and order, and on each entity it writes only the properties named by the
relationship map's keys: reading any other property on the returned
entities gives the same values, position by position, as on the input
entities; with the empty map the entities come back unchanged, with no
property added. -/
theorem claim10_frame :
    (∀ (entities : List Val) (rels : RelationsToLoad),
      (loadRelationsForArray entities rels).1.length = entities.length) ∧
    (∀ (entities : List Val) (rels : RelationsToLoad) (f : String),
      f ∉ relKeys rels →
      (loadRelationsForArray entities rels).1.map (fun e => getField e f)
        = entities.map fun e => getField e f) ∧
    (∀ entities : List Val, loadRelationsForArray entities .nil = (entities, [])) ∧
    (∀ entity : Val, loadRelationsForEntity entity .nil = (entity, [])) :=
  ⟨fun entities rels => length_loadRelationsForArray entities rels,
    fun entities rels f hf => getField_map_loadRelationsForArray entities rels hf,
    fun _ => rfl, fun _ => rfl⟩

theorem claim10_witness :
    ("id" ∉ relKeys (.relEntry "books" bookstoreBooks .nil)) ∧
    (loadRelationsForArray [bookstore1, bookstore2]
        (.relEntry "books" bookstoreBooks .nil)).1.length = 2 ∧
    ((loadRelationsForArray [bookstore1, bookstore2]
        (.relEntry "books" bookstoreBooks .nil)).1.map (fun e => getField e "id")
      = [bookstore1, bookstore2].map fun e => getField e "id") :=
  ⟨by decide,
    (claim10_frame.1 [bookstore1, bookstore2] (.relEntry "books" bookstoreBooks .nil)).trans
      (by decide),
    claim10_frame.2.1 [bookstore1, bookstore2] (.relEntry "books" bookstoreBooks .nil)
      "id" (by decide)⟩

/-! ## Helpers for the default-value and nesting claims -/

theorem getD_mem_of_lt (l : List Val) {i : Nat} (hi : i < l.length) :
    l.getD i Val.vundef ∈ l := by
  rw [List.getD_eq_getElem?_getD, List.getElem?_eq_getElem hi]
  exact List.getElem_mem hi

theorem getD_map_of_lt (f : Val → Val) (l : List Val) {i : Nat} (hi : i < l.length) :
    (l.map f).getD i Val.vundef = f (l.getD i Val.vundef) := by
  simp [List.getD_eq_getElem?_getD, List.getElem?_map, List.getElem?_eq_getElem hi]

theorem getD_loadRelationsForArray_single (entities : List Val) (key : String)
    (rel : Relationship) {i : Nat} (hi : i < entities.length) :
    (loadRelationsForArray entities (.relEntry key rel .nil)).1.getD i Val.vundef
      = setField (entities.getD i Val.vundef) key
          (rel.attach ((rel.load entities).map rel.otherEntity.toEntity)
            (entities.getD i Val.vundef)) := by
  rw [loadRelationsForArray_relEntry]
  exact getD_map_of_lt _ entities hi

theorem getD_loadRelationsForArray_single_nested (entities : List Val) (key : String)
    (rel : Relationship) {subs : RelationsToLoad} (hs : subs.isNil = false)
    {i : Nat} (hi : i < entities.length) :
    (loadRelationsForArray entities (.nestedEntry key rel subs .nil)).1.getD i Val.vundef
      = setField (entities.getD i Val.vundef) key
          (rel.attach (loadRelationsForArray
              ((rel.load entities).map rel.otherEntity.toEntity) subs).1
            (entities.getD i Val.vundef)) := by
  rw [loadRelationsForArray_nestedEntry entities key rel .nil hs]
  exact getD_map_of_lt _ entities hi

theorem adapterLoad_subset (table : List Val) (localField otherField : String)
    (localEntities : List Val) :
    ∀ r ∈ adapterLoad table localField otherField localEntities, r ∈ table := by
  intro r hr
  simp only [adapterLoad] at hr
  split at hr
  · cases hr
  · exact List.mem_of_mem_filter hr

theorem hasOneAttach_eq_vnull (localField otherField : String) {others : List Val}
    {localEntity : Val}
    (hno : ∀ o ∈ others, getField o otherField ≠ getField localEntity localField) :
    hasOneAttach localField otherField others localEntity = Val.vnull := by
  rw [hasOneAttach_eq_getLast,
    List.filter_eq_nil_iff.mpr fun a ha => by simpa using hno a ha]
  rfl

theorem hasManyAttach_eq_empty (localField otherField : String) {others : List Val}
    {localEntity : Val}
    (hno : ∀ o ∈ others, getField o otherField ≠ getField localEntity localField) :
    hasManyAttach localField otherField others localEntity = Val.vlist [] := by
  rw [hasManyAttach_eq_filter,
    List.filter_eq_nil_iff.mpr fun a ha => by simpa using hno a ha]

/-- C3: after hydration, every entity in the original array carries the
requested relationship property; for a local entity whose key value
matches no loaded related entity, a `hasOne` relationship attaches `null`
(the property is present with value `null`, never absent, and nothing
throws) and a `hasMany` relationship attaches the empty list. -/
theorem claim3_missing_match_defaults (otherEntityDef : EntityDefinition)
    (table : List Val) (localField otherField key : String) (entities : List Val)
    (hobj : ∀ e ∈ entities, isObj e = true) :
    (∀ e' ∈ (loadRelationsForArray entities
        (.relEntry key (hasOne localField otherEntityDef table otherField) .nil)).1,
      (getField e' key).isSome = true) ∧
    (∀ e' ∈ (loadRelationsForArray entities
        (.relEntry key (hasMany localField otherEntityDef table otherField) .nil)).1,
      (getField e' key).isSome = true) ∧
    (∀ i, i < entities.length →
      (∀ o ∈ (adapterLoad table localField otherField entities).map
          otherEntityDef.toEntity,
        getField o otherField ≠ getField (entities.getD i Val.vundef) localField) →
      getField ((loadRelationsForArray entities
          (.relEntry key (hasOne localField otherEntityDef table otherField)
            .nil)).1.getD i Val.vundef) key = some Val.vnull ∧
      getField ((loadRelationsForArray entities
          (.relEntry key (hasMany localField otherEntityDef table otherField)
            .nil)).1.getD i Val.vundef) key = some (Val.vlist [])) := by
  refine ⟨hasField_loadRelationsForArray entities hobj _ key (by simp [relKeys]),
    hasField_loadRelationsForArray entities hobj _ key (by simp [relKeys]), ?_⟩
  intro i hi hno
  have heobj : isObj (entities.getD i Val.vundef) = true :=
    hobj _ (getD_mem_of_lt entities hi)
  constructor
  · rw [getD_loadRelationsForArray_single entities key _ hi]
    show getField (setField (entities.getD i Val.vundef) key
      (hasOneAttach localField otherField
        ((adapterLoad table localField otherField entities).map otherEntityDef.toEntity)
        (entities.getD i Val.vundef))) key = some Val.vnull
    rw [hasOneAttach_eq_vnull localField otherField hno]
    exact getField_setField_self heobj key Val.vnull
  · rw [getD_loadRelationsForArray_single entities key _ hi]
    show getField (setField (entities.getD i Val.vundef) key
      (hasManyAttach localField otherField
        ((adapterLoad table localField otherField entities).map otherEntityDef.toEntity)
        (entities.getD i Val.vundef))) key = some (Val.vlist [])
    rw [hasManyAttach_eq_empty localField otherField hno]
    exact getField_setField_self heobj key (Val.vlist [])

theorem claim3_witness :
    (∀ e ∈ [book10], isObj e = true) ∧
    0 < [book10].length ∧
    (∀ o ∈ (adapterLoad [author6] "author_id" "id" [book10]).map idEntityDef.toEntity,
      getField o "id" ≠ getField ([book10].getD 0 Val.vundef) "author_id") ∧
    getField ((loadRelationsForArray [book10]
        (.relEntry "author" (hasOne "author_id" idEntityDef [author6] "id")
          .nil)).1.getD 0 Val.vundef) "author" = some Val.vnull ∧
    getField ((loadRelationsForArray [book10]
        (.relEntry "author" (hasMany "author_id" idEntityDef [author6] "id")
          .nil)).1.getD 0 Val.vundef) "author" = some (Val.vlist []) :=
  ⟨by decide, by decide, by decide,
    ((claim3_missing_match_defaults idEntityDef [author6] "author_id" "id" "author"
        [book10] (by decide)).2.2 0 (by decide) (by decide)).1,
    ((claim3_missing_match_defaults idEntityDef [author6] "author_id" "id" "author"
        [book10] (by decide)).2.2 0 (by decide) (by decide)).2⟩

/-- C4: for a relationship entry given as a pair of descriptor and
non-empty nested relationship map, the attached related entities
themselves carry every sub-relationship property the nested map requests —
`subs` ranges over all maps, whose entries may recursively be nested
pairs, so the guarantee applies at every depth of the caller-supplied
map — both for a `hasMany` entry (every element of the attached list) and
for a `hasOne` entry (the attached entity, when one is attached).  The
recursion is driven by the literal map: the cyclic
bookstore→books→author→books map of Scenario D evaluates to a definite
hydrated value. -/
theorem claim4_nested_hydration :
    (∀ (otherEntityDef : EntityDefinition) (table : List Val)
        (localField otherField key : String) (subs : RelationsToLoad)
        (entities : List Val),
      subs.isNil = false →
      (∀ r ∈ table, isObj (otherEntityDef.toEntity r) = true) →
      ∀ i, i < entities.length → isObj (entities.getD i Val.vundef) = true →
        (∃ bs : List Val,
          getField ((loadRelationsForArray entities
              (.nestedEntry key (hasMany localField otherEntityDef table otherField)
                subs .nil)).1.getD i Val.vundef) key = some (Val.vlist bs) ∧
          ∀ b ∈ bs, ∀ k ∈ relKeys subs, (getField b k).isSome = true) ∧
        (getField ((loadRelationsForArray entities
              (.nestedEntry key (hasOne localField otherEntityDef table otherField)
                subs .nil)).1.getD i Val.vundef) key = some Val.vnull ∨
          ∃ b : Val,
            getField ((loadRelationsForArray entities
                (.nestedEntry key (hasOne localField otherEntityDef table otherField)
                  subs .nil)).1.getD i Val.vundef) key = some b ∧
            ∀ k ∈ relKeys subs, (getField b k).isSome = true)) ∧
    (loadRelationsForArray [bookstore1] cyclicRels).1
      = [Val.vobj [("id", .vint 1), ("books", .vlist
          [Val.vobj [("id", .vint 10), ("author_id", .vint 5), ("bookstore_id", .vint 1),
            ("author", Val.vobj [("id", .vint 5),
              ("books", .vlist [Val.vobj [("id", .vint 10), ("author_id", .vint 5),
                ("bookstore_id", .vint 1)]])])]])]] := by
  constructor
  · intro otherEntityDef table localField otherField key subs entities hs hrows i hi heobj
    have hloadedObj : ∀ o ∈ (adapterLoad table localField otherField entities).map
        otherEntityDef.toEntity, isObj o = true := by
      intro o ho
      obtain ⟨r, hr, rfl⟩ := List.mem_map.mp ho
      exact hrows r (adapterLoad_subset table localField otherField entities r hr)
    have hcarry := hasField_loadRelationsForArray
      ((adapterLoad table localField otherField entities).map otherEntityDef.toEntity)
      hloadedObj subs
    constructor
    · rw [getD_loadRelationsForArray_single_nested entities key _ hs hi]
      refine ⟨(loadRelationsForArray
          ((adapterLoad table localField otherField entities).map
            otherEntityDef.toEntity) subs).1.filter fun o =>
              decide (getField o otherField
                = getField (entities.getD i Val.vundef) localField), ?_, ?_⟩
      · show getField (setField (entities.getD i Val.vundef) key
          (hasManyAttach localField otherField _ (entities.getD i Val.vundef))) key = _
        rw [hasManyAttach_eq_filter]
        exact getField_setField_self heobj key _
      · intro b hb k hk
        exact hcarry k hk b (List.mem_of_mem_filter hb)
    · rw [getD_loadRelationsForArray_single_nested entities key _ hs hi]
      have hval : (hasOne localField otherEntityDef table otherField).attach
          (loadRelationsForArray
            (((hasOne localField otherEntityDef table otherField).load entities).map
              (hasOne localField otherEntityDef table otherField).otherEntity.toEntity)
            subs).1
          (entities.getD i Val.vundef)
          = (((loadRelationsForArray
              ((adapterLoad table localField otherField entities).map
                otherEntityDef.toEntity) subs).1.filter fun o =>
                  decide (getField o otherField
                    = getField (entities.getD i Val.vundef) localField)).getLast?).getD
              Val.vnull := hasOneAttach_eq_getLast localField otherField _ _
      rw [hval]
      rcases hlast : ((loadRelationsForArray
          ((adapterLoad table localField otherField entities).map
            otherEntityDef.toEntity) subs).1.filter fun o =>
              decide (getField o otherField
                = getField (entities.getD i Val.vundef) localField)).getLast? with _ | b
      · left
        exact getField_setField_self heobj key _
      · right
        refine ⟨b, getField_setField_self heobj key _, ?_⟩
        intro k hk
        exact hcarry k hk b
          (List.mem_of_mem_filter (List.mem_of_getLast?_eq_some hlast))
  · decide

theorem claim4_witness :
    ((RelationsToLoad.relEntry "author"
        (hasOne "author_id" idEntityDef [author5] "id") .nil).isNil = false) ∧
    (∀ r ∈ [bookD], isObj (idEntityDef.toEntity r) = true) ∧
    0 < [bookstore1].length ∧ isObj ([bookstore1].getD 0 Val.vundef) = true ∧
    ∃ bs : List Val,
      getField ((loadRelationsForArray [bookstore1]
          (.nestedEntry "books" (hasMany "id" idEntityDef [bookD] "bookstore_id")
            (.relEntry "author" (hasOne "author_id" idEntityDef [author5] "id") .nil)
            .nil)).1.getD 0 Val.vundef) "books" = some (Val.vlist bs) ∧
      ∀ b ∈ bs, ∀ k ∈ relKeys (RelationsToLoad.relEntry "author"
          (hasOne "author_id" idEntityDef [author5] "id") .nil),
        (getField b k).isSome = true :=
  ⟨by decide, by decide, by decide, by decide,
    ((claim4_nested_hydration.1 idEntityDef [bookD] "id" "bookstore_id" "books"
        (.relEntry "author" (hasOne "author_id" idEntityDef [author5] "id") .nil)
        [bookstore1] (by decide) (by decide) 0 (by decide) (by decide)).1)⟩
